import Mathlib

/-!
Verification of the trace-context propagation and span-correlation core of a
small distributed-tracing demo (three Go services: an HTTP checkout service,
an HTTP payment service, and an SQS-consuming worker), together with the
orchestration logic of those services.

The propagation core (AWS X-Ray propagator, X-Ray ID generator, tracer start
semantics) is exercised by the services through a registered global provider;
the propagator and generator themselves live in the OpenTelemetry libraries,
so they are modelled here from the specification's contracts (section 4 of
the spec).  The orchestrators (checkout handler, payment handler, SQS poll
loop, concurrent fan-out in processMessage) are embedded directly from the
service sources.
-/

namespace XRayDemo

/-- Lowercase hex digit character for a nibble value below 16. -/
def hexChar (n : Nat) : Char :=
  if n < 10 then Char.ofNat (48 + n) else Char.ofNat (87 + n)

/-- Numeric value of a lowercase hex digit character; none for any other
character.  Models the hex decoding used when parsing trace and span ids. -/
def hexCharVal (c : Char) : Option Nat :=
  if 48 ≤ c.toNat ∧ c.toNat ≤ 57 then some (c.toNat - 48)
  else if 97 ≤ c.toNat ∧ c.toNat ≤ 102 then some (c.toNat - 87)
  else none

/-- Big-endian fixed-width lowercase hex rendering of a natural number. -/
def toHexChars : Nat → Nat → List Char
  | 0, _ => []
  | w + 1, n => toHexChars w (n / 16) ++ [hexChar (n % 16)]

/-- Fold decoding a list of hex digit characters, most significant first;
none as soon as a non-hex character is met. -/
def fromHexChars : Nat → List Char → Option Nat
  | acc, [] => some acc
  | acc, c :: cs =>
    match hexCharVal c with
    | none => none
    | some v => fromHexChars (acc * 16 + v) cs

/-- Parse a hex field of exactly `w` characters. -/
def parseFixedHex (w : Nat) (cs : List Char) : Option Nat :=
  if cs.length = w then fromHexChars 0 cs else none

/-- Strip an expected literal from the front of a character list, returning
the remainder, or none if the input does not start with the literal. -/
def dropLit : List Char → List Char → Option (List Char)
  | [], cs => some cs
  | _ :: _, [] => none
  | p :: ps, c :: cs => if c = p then dropLit ps cs else none

/-- Split a character list on the semicolon separator, mirroring how the
composite trace header is cut into its `Root` / `Parent` / `Sampled`
segments. -/
def splitSemi : List Char → List (List Char)
  | [] => [[]]
  | c :: cs =>
    if c = ';' then [] :: splitSemi cs
    else
      match splitSemi cs with
      | [] => [[c]]
      | s :: ss => (c :: s) :: ss

/-- Rejoin segments with semicolons; the left inverse used for length
accounting of the composite header. -/
def joinSemi : List (List Char) → List Char
  | [] => []
  | [s] => s
  | s :: s2 :: ss => s ++ ';' :: joinSemi (s2 :: ss)

theorem hexCharVal_hexChar : ∀ d : Nat, d < 16 → hexCharVal (hexChar d) = some d := by
  decide

theorem toHexChars_length (w : Nat) : ∀ n : Nat, (toHexChars w n).length = w := by
  induction w with
  | zero => intro n; rfl
  | succ w ih => intro n; simp [toHexChars, ih]

theorem fromHexChars_append (xs ys : List Char) :
    ∀ acc : Nat, fromHexChars acc (xs ++ ys) =
      (fromHexChars acc xs).bind (fun a => fromHexChars a ys) := by
  induction xs with
  | nil => intro acc; rfl
  | cons c cs ih =>
    intro acc
    simp only [List.cons_append, fromHexChars]
    cases hexCharVal c with
    | none => rfl
    | some v => exact ih _

theorem fromHexChars_toHexChars (w : Nat) :
    ∀ acc n : Nat, fromHexChars acc (toHexChars w n) = some (acc * 16 ^ w + n % 16 ^ w) := by
  induction w with
  | zero =>
    intro acc n
    show some acc = some (acc * 16 ^ 0 + n % 16 ^ 0)
    simp [Nat.mod_one]
  | succ w ih =>
    intro acc n
    rw [toHexChars, fromHexChars_append, ih]
    show fromHexChars (acc * 16 ^ w + n / 16 % 16 ^ w) [hexChar (n % 16)]
      = some (acc * 16 ^ (w + 1) + n % 16 ^ (w + 1))
    rw [fromHexChars, hexCharVal_hexChar _ (Nat.mod_lt _ (by norm_num))]
    show some ((acc * 16 ^ w + n / 16 % 16 ^ w) * 16 + n % 16)
      = some (acc * 16 ^ (w + 1) + n % 16 ^ (w + 1))
    congr 1
    have hmul : n % 16 ^ (w + 1) = n % 16 + 16 * (n / 16 % 16 ^ w) := by
      rw [pow_succ, mul_comm (16 ^ w) 16, Nat.mod_mul]
    rw [hmul, pow_succ]
    ring

theorem parseFixedHex_toHexChars (w n : Nat) (h : n < 16 ^ w) :
    parseFixedHex w (toHexChars w n) = some n := by
  rw [parseFixedHex, if_pos (toHexChars_length w n), fromHexChars_toHexChars]
  simp [Nat.mod_eq_of_lt h]

theorem mem_toHexChars_isSome (w : Nat) :
    ∀ n : Nat, ∀ c ∈ toHexChars w n, (hexCharVal c).isSome := by
  induction w with
  | zero => intro n c hc; simp [toHexChars] at hc
  | succ w ih =>
    intro n c hc
    simp only [toHexChars, List.mem_append, List.mem_singleton] at hc
    cases hc with
    | inl h => exact ih _ c h
    | inr h =>
      rw [h, hexCharVal_hexChar _ (Nat.mod_lt _ (by norm_num))]
      rfl

theorem semi_not_mem_toHexChars (w n : Nat) : ';' ∉ toHexChars w n := by
  intro h
  have hs := mem_toHexChars_isSome w n ';' h
  have : hexCharVal ';' = none := by decide
  rw [this] at hs
  simp at hs

theorem fromHexChars_of_bad_char (c : Char) (hc : hexCharVal c = none) :
    ∀ (cs : List Char) (acc : Nat), c ∈ cs → fromHexChars acc cs = none := by
  intro cs
  induction cs with
  | nil => intro acc h; exact absurd h (List.not_mem_nil c)
  | cons d ds ih =>
    intro acc h
    rw [fromHexChars]
    rcases List.mem_cons.mp h with h1 | h2
    · rw [← h1, hc]
    · cases hd : hexCharVal d with
      | none => rfl
      | some v => exact ih _ h2

theorem splitSemi_ne_nil (cs : List Char) : splitSemi cs ≠ [] := by
  induction cs with
  | nil => simp [splitSemi]
  | cons c cs ih =>
    rw [splitSemi]
    by_cases h : c = ';'
    · simp [h]
    · rw [if_neg h]
      cases hs : splitSemi cs with
      | nil => simp
      | cons s ss => simp

theorem splitSemi_no_semi (xs : List Char) (h : ';' ∉ xs) : splitSemi xs = [xs] := by
  induction xs with
  | nil => rfl
  | cons c cs ih =>
    have hc : c ≠ ';' := fun hc => h (hc ▸ List.mem_cons_self c cs)
    have hcs : ';' ∉ cs := fun hm => h (List.mem_cons_of_mem c hm)
    rw [splitSemi, if_neg hc, ih hcs]

theorem splitSemi_append_semi (xs ys : List Char) (h : ';' ∉ xs) :
    splitSemi (xs ++ ';' :: ys) = xs :: splitSemi ys := by
  induction xs with
  | nil => simp [splitSemi]
  | cons c cs ih =>
    have hc : c ≠ ';' := fun hc => h (hc ▸ List.mem_cons_self c cs)
    have hcs : ';' ∉ cs := fun hm => h (List.mem_cons_of_mem c hm)
    rw [List.cons_append, splitSemi, if_neg hc, ih hcs]

theorem joinSemi_splitSemi (v : List Char) : joinSemi (splitSemi v) = v := by
  induction v with
  | nil => rfl
  | cons c cs ih =>
    rw [splitSemi]
    by_cases h : c = ';'
    · rw [if_pos h, h]
      cases hs : splitSemi cs with
      | nil => exact absurd hs (splitSemi_ne_nil cs)
      | cons s ss =>
        rw [hs] at ih
        rw [joinSemi, List.nil_append, ih]
    · rw [if_neg h]
      cases hs : splitSemi cs with
      | nil => exact absurd hs (splitSemi_ne_nil cs)
      | cons s ss =>
        rw [hs] at ih
        cases ss with
        | nil =>
          rw [joinSemi] at ih
          rw [joinSemi, ih]
        | cons s2 ss2 =>
          rw [joinSemi] at ih ⊢
          rw [List.cons_append, ih]

theorem dropLit_append (ps rest : List Char) : dropLit ps (ps ++ rest) = some rest := by
  induction ps with
  | nil => rfl
  | cons p ps ih => rw [List.cons_append, dropLit, if_pos rfl, ih]

theorem dropLit_eq_some (ps : List Char) :
    ∀ cs rest : List Char, dropLit ps cs = some rest → cs = ps ++ rest := by
  induction ps with
  | nil =>
    intro cs rest h
    rw [dropLit] at h
    rw [List.nil_append]
    exact Option.some.inj h
  | cons p ps ih =>
    intro cs rest h
    cases cs with
    | nil => exact absurd h (by rw [dropLit]; simp)
    | cons c cs' =>
      rw [dropLit] at h
      by_cases hc : c = p
      · rw [if_pos hc] at h
        rw [List.cons_append, ← ih cs' rest h, hc]
      · rw [if_neg hc] at h
        exact absurd h (by simp)

theorem parseFixedHex_length (w : Nat) (cs : List Char) (v : Nat)
    (h : parseFixedHex w cs = some v) : cs.length = w := by
  rw [parseFixedHex] at h
  by_cases hl : cs.length = w
  · exact hl
  · rw [if_neg hl] at h
    exact absurd h (by simp)

/-- Modelled from the spec: the immutable SpanContext value (section 3).
The 16-byte trace id and 8-byte span id are carried as natural numbers below
`16 ^ 32` and `16 ^ 16` respectively; the sampled flag is inherited from the
parent or decided at the root. -/
structure SpanContext where
  traceID : Nat
  spanID : Nat
  sampled : Bool
deriving DecidableEq, Repr

/-- A SpanContext is valid when both identifiers are in range and neither is
the reserved all-zero value. -/
def SpanContext.valid (c : SpanContext) : Bool :=
  (c.traceID != 0) && decide (c.traceID < 16 ^ 32) &&
    (c.spanID != 0) && decide (c.spanID < 16 ^ 16)

/-- The single recognized carrier key, as used by the SQS worker when it
builds the carrier map for an inbound message (service-c main.go). -/
def awsTraceHeaderKey : String := "X-Amzn-Trace-Id"

/-- A carrier is a flat mapping of string keys to string values; values are
kept as character lists. -/
abbrev Carrier := List (String × List Char)

/-- Look up a key in a carrier. -/
def carrierGet : Carrier → String → Option (List Char)
  | [], _ => none
  | (k, v) :: rest, key => if k = key then some v else carrierGet rest key

/-- The `Root=1-<8hex-timestamp>-<24hex-rand>` segment of the composite
header for a span context. -/
def rootField (c : SpanContext) : List Char :=
  ("Root=1-").data ++ toHexChars 8 (c.traceID / 16 ^ 24)
    ++ '-' :: toHexChars 24 (c.traceID % 16 ^ 24)

/-- The `Parent=<16hex-span-id>` segment of the composite header. -/
def parentField (c : SpanContext) : List Char :=
  ("Parent=").data ++ toHexChars 16 c.spanID

/-- The `Sampled=<0|1>` segment of the composite header. -/
def sampledField (c : SpanContext) : List Char :=
  ("Sampled=").data ++ [if c.sampled then '1' else '0']

/-- Modelled from the spec: the serialized composite header value written by
the X-Ray propagator, `Root=<...>;Parent=<...>;Sampled=<0|1>` (section 4.2). -/
def headerValue (c : SpanContext) : List Char :=
  rootField c ++ ';' :: (parentField c ++ ';' :: sampledField c)

/-- Modelled from the spec: `Inject` writes the composite header key into the
carrier; it is a no-op when the context is invalid (section 4.2).  The X-Ray
propagator itself lives in the contrib library and is registered by
`initialiseOpenTelemetry`. -/
def inject (c : SpanContext) (carrier : Carrier) : Carrier :=
  if c.valid then (awsTraceHeaderKey, headerValue c) :: carrier else carrier

/-- Bind on a present optional value reduces to the continuation. -/
theorem someBind {α β : Type} (a : α) (f : α → Option β) : (some a).bind f = f a := rfl

/-- Parse the body of the `Root` segment: a `1-` prefix, eight hex digits of
timestamp, a dash, then twenty-four random hex digits. -/
def parseRootBody (cs : List Char) : Option Nat :=
  (dropLit ('1' :: '-' :: []) cs).bind fun rest =>
  (parseFixedHex 8 (rest.take 8)).bind fun hi =>
  (dropLit ['-'] (rest.drop 8)).bind fun rnd =>
  (parseFixedHex 24 rnd).bind fun lo =>
  some (hi * 16 ^ 24 + lo)

/-- Parse the `Sampled` segment body: exactly the character 0 or 1. -/
def parseSampled (cs : List Char) : Option Bool :=
  if cs = ['0'] then some false
  else if cs = ['1'] then some true
  else none

/-- Parse the three semicolon-separated segments of the composite header:
strip the literal segment names, decode the hex identifiers, and refuse the
reserved all-zero identifiers. -/
def segsParse (s1 s2 s3 : List Char) : Option SpanContext :=
  (dropLit ("Root=").data s1).bind fun r =>
  (dropLit ("Parent=").data s2).bind fun p =>
  (dropLit ("Sampled=").data s3).bind fun smp =>
  (parseRootBody r).bind fun tid =>
  (parseFixedHex 16 p).bind fun sid =>
  (parseSampled smp).bind fun b =>
  if (tid != 0) && (sid != 0) then some ⟨tid, sid, b⟩ else none

/-- Modelled from the spec: parse a composite header value into a span
context; none when the segment count is wrong, a literal is missing, any hex
segment fails to parse, or an identifier is the reserved zero (section 4.2). -/
def extractValue (v : List Char) : Option SpanContext :=
  match splitSemi v with
  | [s1, s2, s3] => segsParse s1 s2 s3
  | _ => none

/-- Modelled from the spec: `Extract` reads the composite header key from the
carrier and parses it, returning none (never an error) when the header is
absent or malformed (section 4.2). -/
def extract (carrier : Carrier) : Option SpanContext :=
  match carrierGet carrier awsTraceHeaderKey with
  | none => none
  | some v => extractValue v

theorem semi_not_mem_rootField (c : SpanContext) : ';' ∉ rootField c := by
  intro h
  rw [rootField] at h
  rcases List.mem_append.mp h with h1 | h2
  · rcases List.mem_append.mp h1 with h3 | h4
    · exact absurd h3 (by decide)
    · exact semi_not_mem_toHexChars 8 _ h4
  · rcases List.mem_cons.mp h2 with h5 | h6
    · exact absurd h5 (by decide)
    · exact semi_not_mem_toHexChars 24 _ h6

theorem semi_not_mem_parentField (c : SpanContext) : ';' ∉ parentField c := by
  intro h
  rw [parentField] at h
  rcases List.mem_append.mp h with h1 | h2
  · exact absurd h1 (by decide)
  · exact semi_not_mem_toHexChars 16 _ h2

theorem semi_not_mem_sampledField (c : SpanContext) : ';' ∉ sampledField c := by
  intro h
  rw [sampledField] at h
  rcases List.mem_append.mp h with h1 | h2
  · exact absurd h1 (by decide)
  · rcases List.mem_cons.mp h2 with h3 | h4
    · by_cases hs : c.sampled
      · rw [hs] at h3; exact absurd h3 (by decide)
      · simp only [hs] at h3; exact absurd h3 (by decide)
    · exact absurd h4 (List.not_mem_nil ';')

theorem splitSemi_headerValue (c : SpanContext) :
    splitSemi (headerValue c) = [rootField c, parentField c, sampledField c] := by
  rw [headerValue, splitSemi_append_semi _ _ (semi_not_mem_rootField c),
    splitSemi_append_semi _ _ (semi_not_mem_parentField c),
    splitSemi_no_semi _ (semi_not_mem_sampledField c)]

theorem extractValue_headerValue (c : SpanContext) (h : c.valid = true) :
    extractValue (headerValue c) = some c := by
  rw [SpanContext.valid] at h
  simp only [Bool.and_eq_true, bne_iff_ne, ne_eq, decide_eq_true_eq] at h
  obtain ⟨⟨⟨ht0, htlt⟩, hs0⟩, hslt⟩ := h
  have hhi : c.traceID / 16 ^ 24 < 16 ^ 8 := by
    rw [Nat.div_lt_iff_lt_mul (by norm_num)]
    calc c.traceID < 16 ^ 32 := htlt
    _ = 16 ^ 8 * 16 ^ 24 := by norm_num
  have hlo : c.traceID % 16 ^ 24 < 16 ^ 24 := Nat.mod_lt _ (by norm_num)
  have hroot : rootField c = ("Root=").data ++ ('1' :: '-' ::
      (toHexChars 8 (c.traceID / 16 ^ 24) ++ '-' :: toHexChars 24 (c.traceID % 16 ^ 24))) := by
    rw [rootField]
    simp
  have hlen8 : (toHexChars 8 (c.traceID / 16 ^ 24)).length = 8 := toHexChars_length 8 _
  rw [extractValue, splitSemi_headerValue]
  show segsParse (rootField c) (parentField c) (sampledField c) = some c
  rw [segsParse, hroot, parentField, sampledField, dropLit_append, someBind,
    dropLit_append, someBind, dropLit_append, someBind]
  rw [parseRootBody]
  have hstrip : dropLit ('1' :: '-' :: []) ('1' :: '-' ::
      (toHexChars 8 (c.traceID / 16 ^ 24) ++ '-' :: toHexChars 24 (c.traceID % 16 ^ 24)))
      = some (toHexChars 8 (c.traceID / 16 ^ 24) ++ '-' :: toHexChars 24 (c.traceID % 16 ^ 24)) :=
    dropLit_append ('1' :: '-' :: []) _
  rw [hstrip, someBind]
  rw [List.take_left' hlen8, List.drop_left' hlen8]
  rw [parseFixedHex_toHexChars 8 _ hhi, someBind]
  have hdrop : dropLit ['-'] ('-' :: toHexChars 24 (c.traceID % 16 ^ 24))
      = some (toHexChars 24 (c.traceID % 16 ^ 24)) := by
    rw [dropLit, if_pos rfl, dropLit]
  rw [hdrop, someBind, parseFixedHex_toHexChars 24 _ hlo, someBind, someBind,
    parseFixedHex_toHexChars 16 _ hslt, someBind]
  have hsam : parseSampled [if c.sampled then '1' else '0'] = some c.sampled := by
    by_cases hs : c.sampled
    · rw [hs]; rfl
    · simp only [hs]; rfl
  rw [hsam, someBind]
  rw [Nat.div_add_mod']
  have hcond : ((c.traceID != 0) && (c.spanID != 0)) = true := by
    simp [ht0, hs0]
  rw [if_pos hcond]

/-- C1: Propagator round-trip law.  Injecting a valid span context into an
empty carrier with the registered X-Ray propagator and extracting it back
yields the same context (same trace id, span id and sampled flag). -/
theorem propagator_round_trip (c : SpanContext) (h : c.valid = true) :
    extract (inject c []) = some c := by
  rw [inject, if_pos h, extract]
  have hget : carrierGet [(awsTraceHeaderKey, headerValue c)] awsTraceHeaderKey
      = some (headerValue c) := by
    rw [carrierGet, if_pos rfl]
  rw [hget]
  exact extractValue_headerValue c h

/-- A concrete valid span context taken from the X-Ray header example in the
source comments. -/
def exampleContext : SpanContext :=
  ⟨0x5759e988bd862e3fe1be46a994272793, 0x53995c3f42cd8ad8, true⟩

/-- Witness for C1: the round-trip law applied to the concrete example
context. -/
theorem propagator_round_trip_witness :
    exampleContext.valid = true ∧ extract (inject exampleContext []) = some exampleContext :=
  ⟨by decide, propagator_round_trip exampleContext (by decide)⟩

/-- Samplers available in the SDK, as enumerated in the commented-out
alternatives of `createSampler`. -/
inductive Sampler where
  | alwaysSample : Sampler
  | neverSample : Sampler
  | parentBased : Sampler → Sampler

/-- The sampler installed by both otel set-up files: parent-based sampling
with always-sample at the root (`sdktrace.ParentBased(sdktrace.AlwaysSample())`). -/
def createSampler : Sampler := Sampler.parentBased Sampler.alwaysSample

/-- Sampling decision: a parent-based sampler defers to the parent's sampled
flag when a parent context exists and to its root sampler otherwise. -/
def shouldSample : Sampler → Option SpanContext → Bool
  | Sampler.alwaysSample, _ => true
  | Sampler.neverSample, _ => false
  | Sampler.parentBased root, none => shouldSample root none
  | Sampler.parentBased _, some p => p.sampled

/-- A started span: its own span context plus the recorded parent link. -/
structure StartedSpan where
  sc : SpanContext
  parentSpanID : Option Nat
deriving DecidableEq, Repr

/-- Modelled from the spec: `Tracer.Start` (section 4.3).  Given no parent
context it creates a root SpanContext from the freshly generated trace id;
given a parent it inherits the trace id, records the parent's span id as the
parent link, and asks the registered sampler (`createSampler`) for the
sampling decision.  The freshly generated identifiers are passed in
explicitly, standing for the ID generator's random output. -/
def tracerStart (parent : Option SpanContext) (freshTraceID freshSpanID : Nat) : StartedSpan :=
  match parent with
  | none => ⟨⟨freshTraceID, freshSpanID, shouldSample createSampler none⟩, none⟩
  | some p => ⟨⟨p.traceID, freshSpanID, shouldSample createSampler (some p)⟩, some p.spanID⟩

/-- C3: Parent/child invariant.  A child span started from a valid parent
context keeps the parent's trace id, records the parent's span id as its
parent link, inherits the parent's sampled flag, and (as long as the ID
generator returns a fresh span id) has a span id different from its
parent's; with no parent context, Start creates a root SpanContext whose
trace id is the freshly generated one and which has no parent link. -/
theorem tracer_parent_child (p : SpanContext) (ft fs : Nat) (hfresh : fs ≠ p.spanID) :
    (tracerStart (some p) ft fs).sc.traceID = p.traceID ∧
    (tracerStart (some p) ft fs).parentSpanID = some p.spanID ∧
    (tracerStart (some p) ft fs).sc.spanID ≠ p.spanID ∧
    (tracerStart (some p) ft fs).sc.sampled = p.sampled ∧
    (tracerStart none ft fs).sc.traceID = ft ∧
    (tracerStart none ft fs).parentSpanID = none := by
  refine ⟨rfl, rfl, hfresh, rfl, rfl, rfl⟩

/-- Witness for C3: the parent/child invariant applied to the concrete
example context with a concrete fresh span id. -/
theorem tracer_parent_child_witness :
    (7 : Nat) ≠ exampleContext.spanID ∧
    (tracerStart (some exampleContext) 3 7).sc.traceID = exampleContext.traceID ∧
    (tracerStart (some exampleContext) 3 7).parentSpanID = some exampleContext.spanID :=
  ⟨by decide, (tracer_parent_child exampleContext 3 7 (by decide)).1,
    (tracer_parent_child exampleContext 3 7 (by decide)).2.1⟩

/-- The trace header carried by the inbound SQS message in the spec's
scenario; in service-c this value arrives as the message system attribute
`AWSTraceHeader` and is placed under the `X-Amzn-Trace-Id` key of a map
carrier before extraction. -/
def scenarioHeader : String :=
  "Root=1-5759e988-bd862e3fe1be46a994272793;Parent=53995c3f42cd8ad8;Sampled=1"

/-- The carrier built by `propagateTraceFromSQSMessage` for the scenario
message. -/
def scenarioCarrier : Carrier := [(awsTraceHeaderKey, scenarioHeader.data)]

/-- C2: SQS scenario.  Extracting the scenario header yields the span
context with trace id 5759e988bd862e3fe1be46a994272793, parent span id
53995c3f42cd8ad8 and sampled set; every child span started from the
extracted context (as `processMessage` does) carries that same trace id, a
parent link equal to the extracted span id, and the inherited sampled flag. -/
theorem sqs_scenario_extraction :
    extract scenarioCarrier
      = some ⟨0x5759e988bd862e3fe1be46a994272793, 0x53995c3f42cd8ad8, true⟩ ∧
    ∀ ft fs : Nat,
      (tracerStart (extract scenarioCarrier) ft fs).sc.traceID
          = 0x5759e988bd862e3fe1be46a994272793 ∧
      (tracerStart (extract scenarioCarrier) ft fs).parentSpanID
          = some 0x53995c3f42cd8ad8 ∧
      (tracerStart (extract scenarioCarrier) ft fs).sc.sampled = true := by
  have h : extract scenarioCarrier
      = some ⟨0x5759e988bd862e3fe1be46a994272793, 0x53995c3f42cd8ad8, true⟩ := by decide
  refine ⟨h, fun ft fs => ?_⟩
  rw [h]
  exact ⟨rfl, rfl, rfl⟩

/-- Modelled from the spec: the X-Ray ID generator's root trace id layout
(section 4.1 and the comment in `createTraceProvider`): the leading four
bytes are the current Unix time in seconds as a big-endian 32-bit value, the
remaining twelve bytes come from the random source, passed in explicitly. -/
def newRootTraceID (nowSec rand96 : Nat) : Nat :=
  nowSec % 2 ^ 32 * 2 ^ 96 + rand96 % 2 ^ 96

/-- Decode the leading four bytes of a 16-byte trace id as a big-endian
timestamp. -/
def traceIDTimestamp (tid : Nat) : Nat := tid / 2 ^ 96

/-- The trailing twelve bytes of a 16-byte trace id. -/
def traceIDRandomPart (tid : Nat) : Nat := tid % 2 ^ 96

/-- C6: Root trace id layout.  For any generation second below 2^32 the
leading four bytes of a freshly generated root trace id decode to exactly
the generation second (in particular within two seconds of it), and the
remaining twelve bytes are exactly the value drawn from the random source. -/
theorem trace_id_timestamp_layout (nowSec rand96 : Nat) (h : nowSec < 2 ^ 32) :
    traceIDTimestamp (newRootTraceID nowSec rand96) = nowSec ∧
    nowSec - 2 ≤ traceIDTimestamp (newRootTraceID nowSec rand96) ∧
    traceIDTimestamp (newRootTraceID nowSec rand96) ≤ nowSec + 2 ∧
    traceIDRandomPart (newRootTraceID nowSec rand96) = rand96 % 2 ^ 96 := by
  have hb : (0 : Nat) < 2 ^ 96 := by positivity
  have hr : rand96 % 2 ^ 96 < 2 ^ 96 := Nat.mod_lt _ hb
  have hts : traceIDTimestamp (newRootTraceID nowSec rand96) = nowSec := by
    rw [traceIDTimestamp, newRootTraceID, Nat.mod_eq_of_lt h, mul_comm,
      Nat.mul_add_div hb, Nat.div_eq_of_lt hr, Nat.add_zero]
  refine ⟨hts, ?_, ?_, ?_⟩
  · rw [hts]; omega
  · rw [hts]; omega
  · rw [traceIDRandomPart, newRootTraceID, add_comm, Nat.add_mul_mod_self_right]
    exact Nat.mod_mod_of_dvd rand96 dvd_rfl

/-- Witness for C6: the layout property at the scenario's generation second
1465510792 (hex 5759e988) with a concrete random value. -/
theorem trace_id_timestamp_witness :
    1465510792 < 2 ^ 32 ∧
    traceIDTimestamp (newRootTraceID 1465510792 12345) = 1465510792 :=
  ⟨by norm_num, (trace_id_timestamp_layout 1465510792 12345 (by norm_num)).1⟩

/-- Outcome of an outbound HTTP round trip as seen by the caller of
`client.Do`: either a response with some status code, or a transport-level
error (no response at all). -/
inductive DoResult where
  | response : Nat → DoResult
  | transportError : DoResult
deriving DecidableEq, Repr

/-- Embedded from service-a `makePayment`: after the POST to the payment
service, only a transport error is reported (`if err != nil`); a response is
accepted without inspecting its status code and nil is returned.  The result
is the error message, or none for success. -/
def makePayment (r : DoResult) : Option String :=
  match r with
  | DoResult.transportError => some "service-b request error"
  | DoResult.response _ => none

/-- An HTTP response as written by a handler: status code plus body. -/
structure HTTPResponse where
  status : Nat
  body : List Char
deriving DecidableEq, Repr

/-- Embedded from service-a `checkoutHandler`: the JSON success body
embedding the current trace id and its X-Ray rendering
(`1-` + first eight hex digits + `-` + remaining digits). -/
def checkoutBody (traceID : List Char) : List Char :=
  ("\x7b\"traceId\": \"").data ++ traceID ++ ("\", \"xray\":\"").data
    ++ '1' :: '-' :: traceID.take 8 ++ '-' :: traceID.drop 8 ++ ("\"\x7d").data

/-- Embedded from service-a `checkoutHandler`: on a `makePayment` error the
handler writes status 500 and returns with no body; otherwise it writes 200
and the JSON body carrying the trace id. -/
def checkoutHandler (traceID : List Char) (payment : DoResult) : HTTPResponse :=
  match makePayment payment with
  | some _ => ⟨500, []⟩
  | none => ⟨200, checkoutBody traceID⟩

/-- Outcome of the SQS `SendMessage` call made by service-b's payment
handler. -/
inductive SendResult where
  | ok : SendResult
  | sendError : SendResult
deriving DecidableEq, Repr

/-- Embedded from service-b `paymentHandler`: `takePayment` always succeeds;
a SendMessage error yields status 500, otherwise status 200.  No response
body is written in either case. -/
def paymentHandler (send : SendResult) : HTTPResponse :=
  match send with
  | SendResult.sendError => ⟨500, []⟩
  | SendResult.ok => ⟨200, []⟩

/-- C9: service-a's `makePayment` treats any downstream response — any
status code, including 4xx and 5xx — as success (it returns none), so the
checkout caller still receives 200 with the trace-id body; only a
transport-level error (no response) is reported, producing a 500. -/
theorem make_payment_ignores_status :
    (∀ status : Nat, makePayment (DoResult.response status) = none) ∧
    (∀ (traceID : List Char) (status : Nat),
      checkoutHandler traceID (DoResult.response status) = ⟨200, checkoutBody traceID⟩) ∧
    makePayment DoResult.transportError ≠ none ∧
    (∀ traceID : List Char, (checkoutHandler traceID DoResult.transportError).status = 500) := by
  refine ⟨fun _ => rfl, fun _ _ => rfl, by simp [makePayment], fun _ => rfl⟩

/-- Counterexample for C7: on success, service-b's payment handler writes
status 200 with an empty body, so the body does not contain a trace id; the
claim that every orchestrating handler's success response body contains the
trace id fails there. -/
theorem http_surface_counterexample :
    (paymentHandler SendResult.ok).status = 200 ∧
    (paymentHandler SendResult.ok).body = [] ∧
    ¬ List.IsInfix ("5759e988bd862e3fe1be46a994272793").data
        (paymentHandler SendResult.ok).body := by
  refine ⟨rfl, rfl, ?_⟩
  intro hinf
  obtain ⟨s, t, hst⟩ := hinf
  have hlen := congrArg List.length hst
  simp [paymentHandler, List.length_append] at hlen

/-- C7 (amended): HTTP callers receive 500 on internal or downstream
failure and 200 on success from both orchestrating handlers; the checkout
handler's success body contains the trace id, while the payment handler's
success response carries an empty body. -/
theorem http_failure_surface (traceID : List Char) :
    (checkoutHandler traceID DoResult.transportError).status = 500 ∧
    (∀ status : Nat,
      (checkoutHandler traceID (DoResult.response status)).status = 200 ∧
      List.IsInfix traceID (checkoutHandler traceID (DoResult.response status)).body) ∧
    (paymentHandler SendResult.sendError).status = 500 ∧
    (paymentHandler SendResult.ok).status = 200 ∧
    (paymentHandler SendResult.ok).body = [] := by
  refine ⟨rfl, fun status => ⟨rfl, ?_⟩, rfl, rfl, rfl⟩
  refine ⟨("\x7b\"traceId\": \"").data,
    ("\", \"xray\":\"").data ++ '1' :: '-' :: traceID.take 8 ++ '-' :: traceID.drop 8
      ++ ("\"\x7d").data, ?_⟩
  show _ = checkoutBody traceID
  rw [checkoutBody]
  simp [List.append_assoc]

/-- A message received from the queue: its id and the trace header carried
in its system attributes. -/
structure SQSMessage where
  messageId : String
  traceHeader : List Char
deriving DecidableEq, Repr

/-- The outcomes of the three side-effecting sub-operations performed while
processing one message (DynamoDB put, downstream HTTP calls, S3 put).  In
the source each failure is only printed and never returned. -/
structure SubOpResults where
  dynamoOk : Bool
  downstreamOk : Bool
  s3Ok : Bool
deriving DecidableEq, Repr

/-- Whether processing a message encountered any failing sub-operation. -/
def processFailed (r : SubOpResults) : Bool :=
  !(r.dynamoOk && r.downstreamOk && r.s3Ok)

/-- One iteration's ReceiveMessage outcome in the poll loop: an error, an
empty receive, or a single message (the source fixes
`MaxNumberOfMessages: 1`). -/
inductive SQSEvent where
  | recvError : SQSEvent
  | recvEmpty : SQSEvent
  | recvMsg : SQSMessage → SQSEvent
deriving DecidableEq, Repr

/-- The `MaxNumberOfMessages` setting of the receive call in `poll`. -/
def maxNumberOfMessages : Nat := 1

/-- What a poll run did: the messages processed and the messages deleted,
in order. -/
structure PollOutcome where
  processed : List SQSMessage
  deleted : List SQSMessage
deriving DecidableEq, Repr

/-- Embedded from service-c `processMessage`: the sub-operation outcomes are
produced by the environment; `processMessage` ignores all of them (failures
are printed inside the helpers and discarded). -/
def processMessageResult (world : SQSMessage → SubOpResults) (m : SQSMessage) : SubOpResults :=
  world m

/-- Embedded from service-c `poll`: iterate over the stream of
ReceiveMessage outcomes; a receive error returns from `poll` immediately; an
empty receive continues; a message is processed (result discarded) and then
deleted unconditionally. -/
def pollRun (world : SQSMessage → SubOpResults) : List SQSEvent → PollOutcome
  | [] => ⟨[], []⟩
  | SQSEvent.recvError :: _ => ⟨[], []⟩
  | SQSEvent.recvEmpty :: rest => pollRun world rest
  | SQSEvent.recvMsg m :: rest =>
    let _ := processMessageResult world m
    let r := pollRun world rest
    ⟨m :: r.processed, m :: r.deleted⟩

/-- The environment in which every sub-operation fails. -/
def failingWorld : SQSMessage → SubOpResults := fun _ => ⟨false, false, false⟩

/-- A concrete queue message. -/
def sampleMessage : SQSMessage := ⟨"message-1", []⟩

/-- Counterexample for C4: in a world where every sub-operation of
processing fails, a received message is still deleted from the queue — the
business work failed, yet the message was acknowledged. -/
theorem ack_counterexample :
    processFailed (failingWorld sampleMessage) = true ∧
    (pollRun failingWorld [SQSEvent.recvMsg sampleMessage]).deleted = [sampleMessage] :=
  ⟨rfl, rfl⟩

/-- C4 (amended): the poll loop deletes every message it processes,
unconditionally — acknowledgment does not depend on the success of the
business work, whatever the sub-operation outcomes are. -/
theorem delete_unconditional (world : SQSMessage → SubOpResults) (events : List SQSEvent) :
    (pollRun world events).deleted = (pollRun world events).processed := by
  induction events with
  | nil => rfl
  | cons e rest ih =>
    cases e with
    | recvError => rfl
    | recvEmpty => exact ih
    | recvMsg m => simp [pollRun, ih]

/-- The messages carried by the events strictly before the first receive
error of the event stream. -/
def messagesBeforeError : List SQSEvent → List SQSMessage
  | [] => []
  | SQSEvent.recvError :: _ => []
  | SQSEvent.recvEmpty :: rest => messagesBeforeError rest
  | SQSEvent.recvMsg m :: rest => m :: messagesBeforeError rest

/-- C10: a single ReceiveMessage error makes `poll` return immediately —
nothing is processed from that point on, with no retry; otherwise the
messages are processed strictly sequentially, in event order, exactly the
messages received before the first error (each iteration receives at most
`maxNumberOfMessages = 1` message and processes it to completion before the
next receive). -/
theorem poll_stops_on_receive_error (world : SQSMessage → SubOpResults)
    (events : List SQSEvent) :
    pollRun world (SQSEvent.recvError :: events) = ⟨[], []⟩ ∧
    (pollRun world events).processed = messagesBeforeError events ∧
    maxNumberOfMessages = 1 := by
  refine ⟨rfl, ?_, rfl⟩
  induction events with
  | nil => rfl
  | cons e rest ih =>
    cases e with
    | recvError => rfl
    | recvEmpty => exact ih
    | recvMsg m => simp [pollRun, messagesBeforeError, ih]

/-- Inversion for optional bind: a successful bind means the first stage
succeeded and the continuation succeeded on its value. -/
theorem obind_some_inv {α β : Type} {o : Option α} {f : α → Option β} {b : β}
    (h : o.bind f = some b) : ∃ a, o = some a ∧ f a = some b := by
  cases o with
  | none => exact absurd h (by simp)
  | some a => exact ⟨a, rfl, h⟩

theorem extractValue_eq (v s1 s2 s3 : List Char) (h : splitSemi v = [s1, s2, s3]) :
    extractValue v = segsParse s1 s2 s3 := by
  rw [extractValue, h]

theorem extractValue_segments (v : List Char) (h : (splitSemi v).length ≠ 3) :
    extractValue v = none := by
  rw [extractValue]
  rcases hs : splitSemi v with _ | ⟨a, _ | ⟨b, _ | ⟨c, _ | ⟨d, l⟩⟩⟩⟩
  · rfl
  · rfl
  · rfl
  · rw [hs] at h; simp at h
  · rfl

theorem parseSampled_length (cs : List Char) (b : Bool) (h : parseSampled cs = some b) :
    cs.length = 1 := by
  rw [parseSampled] at h
  by_cases h0 : cs = ['0']
  · rw [h0]; rfl
  · rw [if_neg h0] at h
    by_cases h1 : cs = ['1']
    · rw [h1]; rfl
    · rw [if_neg h1] at h
      exact absurd h (by simp)

theorem parseRootBody_length (cs : List Char) (tid : Nat) (h : parseRootBody cs = some tid) :
    cs.length = 35 := by
  rw [parseRootBody] at h
  obtain ⟨rest, h1, h2⟩ := obind_some_inv h
  obtain ⟨hi, h3, h4⟩ := obind_some_inv h2
  obtain ⟨rnd, h5, h6⟩ := obind_some_inv h4
  obtain ⟨lo, h7, _⟩ := obind_some_inv h6
  have hcs := dropLit_eq_some _ _ _ h1
  have htake := parseFixedHex_length _ _ _ h3
  have hdrop := dropLit_eq_some _ _ _ h5
  have hrnd := parseFixedHex_length _ _ _ h7
  have hmin : (rest.take 8).length = min 8 rest.length := List.length_take 8 rest
  have hdl : (rest.drop 8).length = rest.length - 8 := List.length_drop 8 rest
  have hdl2 : (rest.drop 8).length = 25 := by
    rw [hdrop]
    simp [hrnd]
  rw [hcs]
  simp only [List.length_cons, List.length_append, List.length_nil]
  omega

theorem extractValue_length (v : List Char) (sc : SpanContext)
    (h : extractValue v = some sc) : v.length = 74 := by
  have h3 : (splitSemi v).length = 3 := by
    by_contra hne
    rw [extractValue_segments v hne] at h
    exact absurd h (by simp)
  obtain ⟨s1, s2, s3, hsp⟩ := List.length_eq_three.mp h3
  rw [extractValue_eq v s1 s2 s3 hsp, segsParse] at h
  obtain ⟨r, hr, h4⟩ := obind_some_inv h
  obtain ⟨p, hp, h5⟩ := obind_some_inv h4
  obtain ⟨smp, hsmp, h6⟩ := obind_some_inv h5
  obtain ⟨tid, htid, h7⟩ := obind_some_inv h6
  obtain ⟨sid, hsid, h8⟩ := obind_some_inv h7
  obtain ⟨b, hb, _⟩ := obind_some_inv h8
  have hs1 := dropLit_eq_some _ _ _ hr
  have hs2 := dropLit_eq_some _ _ _ hp
  have hs3 := dropLit_eq_some _ _ _ hsmp
  have hrl := parseRootBody_length _ _ htid
  have hpl := parseFixedHex_length _ _ _ hsid
  have hsl := parseSampled_length _ _ hb
  have hv : v = s1 ++ ';' :: (s2 ++ ';' :: s3) := by
    rw [← joinSemi_splitSemi v, hsp]
    rfl
  rw [hv, hs1, hs2, hs3]
  simp only [List.length_append, List.length_cons]
  simp only [hrl, hpl, hsl]
  rfl

/-- The start of a unit of work in the queue orchestrator, as in
`processMessage`: build the carrier from the message attributes, extract,
and start the span from whatever context extraction produced. -/
def orchestratorStart (carrier : Carrier) (freshTraceID freshSpanID : Nat) : StartedSpan :=
  tracerStart (extract carrier) freshTraceID freshSpanID

/-- C8: Malformed-carrier resilience.  Extraction is a total function that
returns none — never an error — on a carrier without the trace header, on a
header value whose semicolon segment count is not three, on any value whose
length differs from the 74 characters of a well-formed header (in
particular on every truncation of a valid header), and on any fixed-width
hex field containing a non-hex character; and when extraction returns none
the orchestrator proceeds as a new root trace: the started span has no
parent link and uses the freshly generated trace id. -/
theorem malformed_carrier_resilience :
    (∀ (carrier : Carrier) (ft fs : Nat), carrierGet carrier awsTraceHeaderKey = none →
      extract carrier = none ∧
      (orchestratorStart carrier ft fs).parentSpanID = none ∧
      (orchestratorStart carrier ft fs).sc.traceID = ft) ∧
    (∀ v : List Char, (splitSemi v).length ≠ 3 → extractValue v = none) ∧
    (∀ (v : List Char) (sc : SpanContext), extractValue v = some sc → v.length = 74) ∧
    (∀ (w : Nat) (cs : List Char) (c : Char), c ∈ cs → hexCharVal c = none →
      parseFixedHex w cs = none) := by
  refine ⟨?_, extractValue_segments, extractValue_length, ?_⟩
  · intro carrier ft fs hget
    have hex : extract carrier = none := by
      rw [extract, hget]
    refine ⟨hex, ?_, ?_⟩ <;> rw [orchestratorStart, hex] <;> rfl
  · intro w cs c hmem hc
    rw [parseFixedHex]
    by_cases hl : cs.length = w
    · rw [if_pos hl]
      exact fromHexChars_of_bad_char c hc cs 0 hmem
    · rw [if_neg hl]

/-- Witness for C8: the resilience theorem applied to concrete malformed
inputs — an empty carrier, a header value with no semicolons, the scenario
header's length, and a hex field containing the non-hex character x. -/
theorem malformed_carrier_witness :
    extract [] = none ∧
    extractValue ("not-a-trace-header").data = none ∧
    scenarioHeader.data.length = 74 ∧
    parseFixedHex 4 ['a', 'x', '0', '1'] = none := by
  have h := malformed_carrier_resilience
  refine ⟨(h.1 [] 0 0 rfl).1, h.2.1 _ (by decide), ?_, h.2.2.2 4 _ 'x' (by decide) (by decide)⟩
  exact h.2.2.1 scenarioHeader.data
    ⟨0x5759e988bd862e3fe1be46a994272793, 0x53995c3f42cd8ad8, true⟩ (by decide)

/-- Mark child `i` as done. -/
def setDone {n : Nat} (f : Fin n → Bool) (i : Fin n) : Fin n → Bool :=
  fun j => if j = i then true else f j

/-- State of the fan-out join in `processMessage`: the WaitGroup counter
(started at the fan-out count by `wg.Add`), which children have called
`wg.Done`, whether `wg.Wait` has returned, and whether the deferred
`span.End` has run. -/
structure JoinState (n : Nat) where
  counter : Nat
  childDone : Fin n → Bool
  waited : Bool
  ended : Bool

/-- Initial join state: counter at the fan-out count, nothing done. -/
def initJoinState (n : Nat) : JoinState n := ⟨n, fun _ => false, false, false⟩

/-- Observable events of one `processMessage` fan-out: child `i` finishing
(carrying whether its sub-operation succeeded — the flag plays no role in
the semantics, because failures are printed and discarded), `wg.Wait`
returning, and the parent `span.End`. -/
inductive FanEvent (n : Nat) where
  | childEnd : Fin n → Bool → FanEvent n
  | waitReturn : FanEvent n
  | spanEnd : FanEvent n
deriving DecidableEq, Repr

/-- Embedded from service-c `processMessage` and the `sync.WaitGroup`
counter discipline: a child that has not yet finished may finish at any time
(its success flag unconstrained — no sibling is cancelled by a failure),
decrementing the counter; `wg.Wait` returns only when the counter is zero;
the deferred `span.End` runs only after `wg.Wait` has returned. -/
inductive JoinStep (n : Nat) : JoinState n → FanEvent n → JoinState n → Prop where
  | childEnd {s : JoinState n} (i : Fin n) (ok : Bool) (h : s.childDone i = false) :
      JoinStep n s (FanEvent.childEnd i ok)
        ⟨s.counter - 1, setDone s.childDone i, s.waited, s.ended⟩
  | waitReturn {s : JoinState n} (h : s.counter = 0) :
      JoinStep n s FanEvent.waitReturn ⟨s.counter, s.childDone, true, s.ended⟩
  | spanEnd {s : JoinState n} (h : s.waited = true) :
      JoinStep n s FanEvent.spanEnd ⟨s.counter, s.childDone, s.waited, true⟩

/-- A run: a sequence of steps through a list of events. -/
inductive JoinRun (n : Nat) : JoinState n → List (FanEvent n) → JoinState n → Prop where
  | nil (s : JoinState n) : JoinRun n s [] s
  | cons {s s2 s3 : JoinState n} {e : FanEvent n} {evs : List (FanEvent n)} :
      JoinStep n s e s2 → JoinRun n s2 evs s3 → JoinRun n s (e :: evs) s3

/-- Number of children that have finished. -/
def doneCount {n : Nat} (s : JoinState n) : Nat :=
  (Finset.univ.filter fun i => s.childDone i = true).card

/-- Counter invariant of the WaitGroup: the counter plus the finished
children always equals the fan-out count, and once `wg.Wait` has returned
every child has finished. -/
def JoinInv {n : Nat} (s : JoinState n) : Prop :=
  s.counter + doneCount s = n ∧ (s.waited = true → ∀ i, s.childDone i = true)

theorem joinStep_inv {n : Nat} {s s2 : JoinState n} {e : FanEvent n}
    (hstep : JoinStep n s e s2) (hinv : JoinInv s) : JoinInv s2 := by
  obtain ⟨hc, hw⟩ := hinv
  cases hstep with
  | childEnd i ok h =>
    have hfilter : (Finset.univ.filter fun j => setDone s.childDone i j = true)
        = insert i (Finset.univ.filter fun j => s.childDone j = true) := by
      ext j
      by_cases hj : j = i
      · subst hj; simp [setDone]
      · simp [setDone, hj]
    have hnotmem : i ∉ (Finset.univ.filter fun j => s.childDone j = true) := by
      simp [h]
    have hcard : doneCount (⟨s.counter - 1, setDone s.childDone i, s.waited, s.ended⟩ : JoinState n)
        = doneCount s + 1 := by
      show (Finset.univ.filter fun j => setDone s.childDone i j = true).card = _
      rw [hfilter, Finset.card_insert_of_not_mem hnotmem]
      rfl
    have hbound : (insert i (Finset.univ.filter fun j => s.childDone j = true)).card
        ≤ Fintype.card (Fin n) := Finset.card_le_univ _
    rw [Finset.card_insert_of_not_mem hnotmem, Fintype.card_fin] at hbound
    constructor
    · show s.counter - 1 + doneCount _ = n
      rw [hcard]
      have : doneCount s < n := by
        have := hbound
        rw [doneCount]
        omega
      omega
    · intro hwaited j
      show setDone s.childDone i j = true
      by_cases hj : j = i
      · subst hj; simp [setDone]
      · simp only [setDone, if_neg hj]
        exact hw hwaited j
  | waitReturn h =>
    refine ⟨hc, fun _ i => ?_⟩
    have hcount : doneCount s = n := by
      have := hc
      omega
    have huniv : (Finset.univ.filter fun j => s.childDone j = true) = Finset.univ := by
      apply Finset.eq_univ_of_card
      rw [Fintype.card_fin]
      exact hcount
    have hi : i ∈ Finset.univ.filter fun j => s.childDone j = true := by
      rw [huniv]
      exact Finset.mem_univ i
    exact (Finset.mem_filter.mp hi).2
  | spanEnd h => exact ⟨hc, hw⟩

theorem joinRun_inv {n : Nat} {s s2 : JoinState n} {tr : List (FanEvent n)}
    (hrun : JoinRun n s tr s2) (hinv : JoinInv s) : JoinInv s2 := by
  induction hrun with
  | nil => exact hinv
  | cons hstep _ ih => exact ih (joinStep_inv hstep hinv)

theorem joinRun_append {n : Nat} {s u : JoinState n} (l1 l2 : List (FanEvent n))
    (h : JoinRun n s (l1 ++ l2) u) : ∃ t, JoinRun n s l1 t ∧ JoinRun n t l2 u := by
  induction l1 generalizing s with
  | nil => exact ⟨s, JoinRun.nil s, h⟩
  | cons e l1 ih =>
    cases h with
    | cons hstep hrun =>
      obtain ⟨t, h1, h2⟩ := ih hrun
      exact ⟨t, JoinRun.cons hstep h1, h2⟩

theorem joinRun_childDone {n : Nat} {s s2 : JoinState n} {tr : List (FanEvent n)}
    (h : JoinRun n s tr s2) (i : Fin n) (hdone : s2.childDone i = true) :
    s.childDone i = true ∨ ∃ ok, FanEvent.childEnd i ok ∈ tr := by
  induction h with
  | nil => exact Or.inl hdone
  | cons hstep _ ih =>
    rcases ih hdone with h1 | ⟨ok, h2⟩
    · cases hstep with
      | childEnd j okj hj =>
        by_cases hij : i = j
        · exact Or.inr ⟨okj, by rw [hij]; exact List.mem_cons_self _ _⟩
        · left
          have h1b := h1
          simp only [setDone] at h1b
          rw [if_neg hij] at h1b
          exact h1b
      | waitReturn hcond => exact Or.inl h1
      | spanEnd hcond => exact Or.inl h1
    · exact Or.inr ⟨ok, List.mem_cons_of_mem _ h2⟩

/-- C5: Join-before-close.  In every run of the `processMessage` fan-out
starting from the initial WaitGroup state, whatever the fan-out count and
whatever each child's success flag, every child's completion event occurs
strictly before the parent's `span.End` event — the parent span is ended
only after all concurrently launched sub-operations have completed, and a
failing sub-operation is still awaited like any other. -/
theorem join_before_close (n : Nat) (tr1 tr2 : List (FanEvent n)) (sfin : JoinState n)
    (hrun : JoinRun n (initJoinState n) (tr1 ++ FanEvent.spanEnd :: tr2) sfin) (i : Fin n) :
    ∃ ok, FanEvent.childEnd i ok ∈ tr1 := by
  obtain ⟨t, h1, h2⟩ := joinRun_append tr1 _ hrun
  cases h2 with
  | cons hstep _ =>
    have hw : t.waited = true := by cases hstep; assumption
    have hinit : JoinInv (initJoinState n) := by
      constructor
      · show n + doneCount (initJoinState n) = n
        have : doneCount (initJoinState n) = 0 := by
          show (Finset.univ.filter fun j => false = true).card = 0
          simp
        omega
      · intro hfalse
        exact absurd hfalse (by simp [initJoinState])
    have hinv : JoinInv t := joinRun_inv h1 hinit
    have hdone : t.childDone i = true := hinv.2 hw i
    rcases joinRun_childDone h1 i hdone with hfalse | hex
    · exact absurd hfalse (by simp [initJoinState])
    · exact hex

/-- Witness for C5: a concrete complete run with fan-out two — matching the
`wg.Add(2)` in `processMessage` — in which the second child fails; both
completion events still precede the span end. -/
theorem join_before_close_witness :
    ∃ ok, FanEvent.childEnd (0 : Fin 2) ok ∈
      [FanEvent.childEnd (0 : Fin 2) true, FanEvent.childEnd 1 false,
        FanEvent.waitReturn] :=
  join_before_close 2
    [FanEvent.childEnd 0 true, FanEvent.childEnd 1 false, FanEvent.waitReturn] [] _
    (JoinRun.cons (JoinStep.childEnd 0 true (by decide))
      (JoinRun.cons (JoinStep.childEnd 1 false (by decide))
        (JoinRun.cons (JoinStep.waitReturn (by decide))
          (JoinRun.cons (JoinStep.spanEnd (by decide)) (JoinRun.nil _))))) 0

end XRayDemo
